import Mathlib

/-!
Consensus simulation host program: configuration enumeration, loading, aggregation.

A shallow embedding of `src/main-sampling-2.cpp` and `src/load_data.hpp`.

Conventions of the embedding.

* `uint32_t` values are natural numbers; every `uint32_t` operation that can
  leave the range is reduced modulo `2 ^ 32` explicitly.
* `int` values are integers; an `int` computation whose mathematical result
  leaves `[-2^31, 2^31)` is undefined in C++ and yields `none`.  A conversion
  of an out-of-range value to `int` wraps modulo `2 ^ 32`.
* a shift of a `uint32_t` by 32 or more, a division by zero and an
  out-of-range `operator[]` are undefined in C++ and yield `none`.
* a counted `for` loop is a left fold over `List.range`; `push_back` is
  appending a singleton.
-/

namespace ConsensusHost

/-! ## Machine arithmetic -/

/-- Number of values of a `uint32_t`. -/
def UINT32_RANGE : Nat := 2 ^ 32

/-- Truncation of a natural number to `uint32_t`. -/
def toUInt32 (x : Nat) : Nat := x % UINT32_RANGE

/-- The expression `x << s` on `uint32_t` operands: undefined when the shift
amount is not below the width, truncated to 32 bits otherwise. -/
def shl32 (x s : Nat) : Option Nat :=
  if s < 32 then some (toUInt32 (x * 2 ^ s)) else none

/-! ## `generateAllBinaryConfigs` (main-sampling-2.cpp, lines 20-33) -/

/-- The inner loop `for (bit = 0; bit < n; ++bit)` of `generateAllBinaryConfigs`
for one value of `i`: pushes `(i >> (n - 1 - bit)) & 1` for each `bit`. -/
def pushConfigBits (n i : Nat) (configs : List Nat) : List Nat :=
  (List.range n).foldl (fun acc bit => acc ++ [(i >>> (n - 1 - bit)) &&& 1]) configs

/-- The outer loop `for (i = 0; i < totalConfigs; ++i)` of
`generateAllBinaryConfigs`, starting from the empty vector. -/
def fillConfigs (totalConfigs n : Nat) : List Nat :=
  (List.range totalConfigs).foldl (fun acc i => pushConfigBits n i acc) []

/-- The function `generateAllBinaryConfigs(uint32_t n)`: `totalConfigs = 1u << n`,
then the two nested loops. -/
def generateAllBinaryConfigs (n : Nat) : Option (List Nat) :=
  match shl32 1 n with
  | none => none
  | some totalConfigs => some (fillConfigs totalConfigs n)

/-- The expression `static_cast<uint32_t>(configs.size() / nodeCount)` of `main`
(line 140); the division is undefined for `nodeCount = 0`. -/
def numConfigsOf (configs : List Nat) (nodeCount : Nat) : Option Nat :=
  if nodeCount = 0 then none else some (toUInt32 (configs.length / nodeCount))

/-- The value `numConfigs` of `main` (lines 139-140). -/
def mainNumConfigs (nodeCount : Nat) : Option Nat :=
  match generateAllBinaryConfigs nodeCount with
  | none => none
  | some configs => numConfigsOf configs nodeCount

/-! ## `loadAdjacencyMatrices` (load_data.hpp, lines 9-45) -/

/-- Smallest value of an `int`. -/
def INT_MIN : Int := -(2 ^ 31)

/-- Largest value of an `int`. -/
def INT_MAX : Int := 2 ^ 31 - 1

/-- The result of an arithmetic expression of type `int`: its mathematical
value when that is representable, undefined otherwise. -/
def checkedInt (x : Int) : Option Int :=
  if INT_MIN ≤ x ∧ x ≤ INT_MAX then some x else none

/-- Conversion of a wider integer to `int` (reduction modulo `2 ^ 32` into
`[-2^31, 2^31)`). -/
def toInt32 (x : Int) : Int := (x + 2 ^ 31) % 2 ^ 32 - 2 ^ 31

/-- The expression `static_cast<unsigned char>(c)` for a buffer byte. -/
def toUnsignedChar (b : Nat) : Nat := b % 256

/-- A file as `loadAdjacencyMatrices` sees it: whether the stream opens, the
bytes it holds (unsigned values), and whether `file.read` of the whole
content succeeds. -/
structure BinaryFile where
  opens : Bool
  bytes : List Nat
  readOk : Bool

/-- The expression `static_cast<unsigned char>(buffer[i * matrixLen + j])`
(line 39), with `i`, `matrixLen`, `j` of type `int`. -/
def readEntry (buffer : List Nat) (i matrixLen j : Int) : Option Nat :=
  match checkedInt (i * matrixLen) with
  | none => none
  | some p =>
    match checkedInt (p + j) with
    | none => none
    | some idx =>
      if idx < 0 then none
      else
        match buffer[idx.toNat]? with
        | none => none
        | some c => some (toUnsignedChar c)

/-- The inner loop `for (int j = 0; j < matrixLen; ++j)` (lines 37-40): the
matrix of graph `i`. -/
def buildMatrix (buffer : List Nat) (i matrixLen : Int) : Option (List Nat) :=
  (List.range matrixLen.toNat).foldlM
    (fun matrix (j : Nat) =>
      (readEntry buffer i matrixLen (j : Int)).map (fun v => matrix ++ [v]))
    []

/-- The outer loop `for (int i = 0; i < numMatrices; ++i)` (lines 36-42). -/
def buildMatrices (buffer : List Nat) (numMatrices matrixLen : Int) :
    Option (List (List Nat)) :=
  (List.range numMatrices.toNat).foldlM
    (fun matrices (i : Nat) =>
      (buildMatrix buffer (i : Int) matrixLen).map (fun matrix => matrices ++ [matrix]))
    []

/-- The function `loadAdjacencyMatrices(filename, matrixSize)`.  `fileSize` is a
64-bit `std::streamsize`; `%` and `/` truncate toward zero. -/
def loadAdjacencyMatrices (file : BinaryFile) (matrixSize : Int) :
    Option (List (List Nat)) :=
  if file.opens = false then some []
  else
    let fileSize : Int := file.bytes.length
    match checkedInt (matrixSize * matrixSize) with
    | none => none
    | some matrixLen =>
      if matrixLen = 0 then none
      else if Int.tmod fileSize matrixLen ≠ 0 then some []
      else
        let numMatrices := toInt32 (Int.tdiv fileSize matrixLen)
        if file.readOk = false then some []
        else buildMatrices file.bytes numMatrices matrixLen

/-- The loop of `main` (lines 150-154) that appends every matrix to
`allMatricesFlat`. -/
def flattenMatrices (allMatrices : List (List Nat)) : List Nat :=
  allMatrices.foldl (fun flat matrix => flat ++ matrix) []

/-! ## `gpuConsensusSimulationBatch` (main-sampling-2.cpp, lines 36-122) -/

/-- The parallel substrate as the host code sees it: whether the default
library loads, whether the compute pipeline is created, and the compute
kernel `countConsensusConfigs` (not part of the host sources), given as the
value it leaves in result slot `g` for the buffers and parameters bound to it:
all matrices, configurations, `nodeCount`, `numConfigs`, `numSteps`,
`numGraphs`, and the grid size. -/
structure Substrate where
  libraryOk : Bool
  pipelineOk : Bool
  kernel : List Nat → List Nat → Nat → Nat → Nat → Nat → Nat → Nat → Nat

/-- The grid size `uint32_t totalThreads = numGraphs * numConfigs` (line 98). -/
def totalThreads (numGraphs numConfigs : Nat) : Nat :=
  toUInt32 (numGraphs * numConfigs)

/-- What a call of `gpuConsensusSimulationBatch` leaves behind: the content of
the caller's vector `results`, and the grid size handed to
`encoder->dispatchThreads` (lines 102-104), `none` when the function returns
before dispatching anything. -/
structure BatchOutcome where
  results : List Nat
  dispatched : Option Nat
  deriving DecidableEq

/-- The function `gpuConsensusSimulationBatch`.  Both early returns (lines 52-55
and 62-66) leave `results` untouched and dispatch nothing.  Otherwise a grid of
`totalThreads` work units is dispatched (lines 98-104) and `memcpy` (line 111)
copies the `numGraphs` slots of the result buffer over the first `numGraphs`
entries of `results`, which is undefined when `results` is shorter. -/
def gpuConsensusSimulationBatch (gpu : Substrate)
    (allMatricesFlat configs results : List Nat)
    (nodeCount numConfigs numGraphs numSteps : Nat) : Option BatchOutcome :=
  if gpu.libraryOk = false then some { results := results, dispatched := none }
  else if gpu.pipelineOk = false then some { results := results, dispatched := none }
  else
    let grid := totalThreads numGraphs numConfigs
    if results.length < numGraphs then none
    else
      some
        { results :=
            (List.range numGraphs).map (fun g =>
              toUInt32 (gpu.kernel allMatricesFlat configs nodeCount numConfigs numSteps
                numGraphs grid g))
            ++ results.drop numGraphs
          dispatched := some grid }

/-! ## Aggregation and reports of `main` (lines 172-239) -/

/-- What the aggregation loop of `main` has produced so far: the vector
`distribution`, the counter `totalEstaveis`, and the flags of the per-graph
records written to the all-graphs file (a record is abstracted to its flag;
the matrix text in front of it is not modelled). -/
structure AggState where
  distribution : List Nat
  totalEstaveis : Nat
  flags : List Nat
  deriving DecidableEq

/-- The flag `(convergentes == numConfigs) ? 1 : 0` (line 206). -/
def stableFlag (numConfigs convergentes : Nat) : Nat :=
  if convergentes = numConfigs then 1 else 0

/-- One iteration of the aggregation loop (lines 184-206) for
`convergentes = results[i]`. -/
def aggregateStep (numConfigs : Nat) (st : AggState) (convergentes : Nat) :
    Option AggState :=
  match st.distribution[convergentes]? with
  | none => none
  | some c =>
    some
      { distribution := st.distribution.set convergentes (toUInt32 (c + 1))
        totalEstaveis :=
          if convergentes = numConfigs then toUInt32 (st.totalEstaveis + 1)
          else st.totalEstaveis
        flags := st.flags ++ [stableFlag numConfigs convergentes] }

/-- The state before the loop: `distribution(numConfigs + 1, 0)`,
`totalEstaveis = 0`, nothing written. -/
def aggregateInit (numConfigs : Nat) : AggState :=
  { distribution := List.replicate (toUInt32 (numConfigs + 1)) 0
    totalEstaveis := 0
    flags := [] }

/-- The aggregation loop `for (i = 0; i < numGraphs; ++i)` of `main` over the
vector `results`, which has exactly `numGraphs` entries (line 157). -/
def aggregate (numConfigs : Nat) (results : List Nat) : Option AggState :=
  results.foldlM (aggregateStep numConfigs) (aggregateInit numConfigs)

/-- The rows printed after `Quantity,Frequency` on standard output
(lines 219-224): rows with `freq == 0` are skipped. -/
def printedTable (numConfigs : Nat) (distribution : List Nat) :
    Option (List (Nat × Nat)) :=
  (List.range (numConfigs + 1)).foldlM
    (fun rows x =>
      (distribution[x]?).map (fun freq => if freq = 0 then rows else rows ++ [(x, freq)]))
    []

/-- The rows written after `Quantity,Frequency` to the frequency-table CSV
file (lines 232-235). -/
def csvTable (numConfigs : Nat) (distribution : List Nat) :
    Option (List (Nat × Nat)) :=
  (List.range (numConfigs + 1)).foldlM
    (fun rows k => (distribution[k]?).map (fun freq => rows ++ [(k, freq)]))
    []

/-! ## `main` (lines 126-243) -/

/-- Everything `main` reads from its environment. -/
structure MainInput where
  deviceOk : Bool
  nodeCount : Nat
  file : BinaryFile
  gpu : Substrate
  allGraphsCsvOpens : Bool
  frequencyCsvOpens : Bool

/-- What `main` emits: its exit code; the flags of the per-graph records, when
the all-graphs file was written; the printed total of fully stable graphs and
the printed table, when printed; the rows of the frequency CSV, when written. -/
structure MainOutput where
  exitCode : Nat
  graphFlags : Option (List Nat)
  printedTotal : Option Nat
  printedRows : Option (List (Nat × Nat))
  csvRows : Option (List (Nat × Nat))
  deriving DecidableEq

/-- An exit of `main` with code 1 before any report is produced. -/
def abortOutput : MainOutput :=
  { exitCode := 1, graphFlags := none, printedTotal := none, printedRows := none,
    csvRows := none }

/-- The rows of the frequency CSV block (lines 226-239). -/
def frequencyCsv (opens : Bool) (numConfigs : Nat) (distribution : List Nat) :
    Option (Option (List (Nat × Nat))) :=
  if opens = false then some none
  else
    match csvTable numConfigs distribution with
    | none => none
    | some rows => some (some rows)

/-- The part of `main` after the call of `gpuConsensusSimulationBatch`
(lines 172-243). -/
def mainReport (inp : MainInput) (numConfigs : Nat) (results : List Nat) :
    Option MainOutput :=
  if inp.allGraphsCsvOpens = false then some abortOutput
  else
    match aggregate numConfigs results with
    | none => none
    | some st =>
      match printedTable numConfigs st.distribution with
      | none => none
      | some printed =>
        match frequencyCsv inp.frequencyCsvOpens numConfigs st.distribution with
        | none => none
        | some csv =>
          some
            { exitCode := 0
              graphFlags := some st.flags
              printedTotal := some st.totalEstaveis
              printedRows := some printed
              csvRows := csv }

/-- What `main` has computed when `gpuConsensusSimulationBatch` returns: its
variables `numConfigs` and `numGraphs`, and the outcome of the call. -/
structure BatchRun where
  numConfigs : Nat
  numGraphs : Nat
  outcome : BatchOutcome
  deriving DecidableEq

/-- The part of `main` from reading `nodeCount` to the return of
`gpuConsensusSimulationBatch` (lines 133-165); `none` when it runs into
undefined behaviour. -/
def mainBatch (inp : MainInput) : Option BatchRun :=
  match shl32 1 inp.nodeCount with
  | none => none
  | some p =>
    let numSteps := toUInt32 (p + 1)
    match generateAllBinaryConfigs inp.nodeCount with
    | none => none
    | some configs =>
      match numConfigsOf configs inp.nodeCount with
      | none => none
      | some numConfigs =>
        match loadAdjacencyMatrices inp.file (toInt32 inp.nodeCount) with
        | none => none
        | some allMatrices =>
          let numGraphs := toUInt32 allMatrices.length
          let allMatricesFlat := flattenMatrices allMatrices
          match gpuConsensusSimulationBatch inp.gpu allMatricesFlat configs
              (List.replicate numGraphs 0) inp.nodeCount numConfigs numGraphs numSteps with
          | none => none
          | some outcome =>
            some { numConfigs := numConfigs, numGraphs := numGraphs, outcome := outcome }

/-- The function `main`; `none` when it runs into undefined behaviour. -/
def main (inp : MainInput) : Option MainOutput :=
  if inp.deviceOk = false then some abortOutput
  else
    match mainBatch inp with
    | none => none
    | some run => mainReport inp run.numConfigs run.outcome.results

/-! ## Reading a flat configuration vector -/

/-- Configuration `i` of a flat vector: the `n` entries at positions
`i * n .. i * n + n - 1`. -/
def configAt (configs : List Nat) (n i : Nat) : List Nat :=
  (configs.drop (i * n)).take n

/-- The value of a sequence of binary digits, most significant digit first. -/
def binaryValue (digits : List Nat) : Nat :=
  digits.foldl (fun acc d => 2 * acc + d) 0

/-- The row pushed for `i`: bit `n - 1 - bit` of `i` at position `bit`. -/
def configRow (n i : Nat) : List Nat :=
  (List.range n).map (fun bit => (i >>> (n - 1 - bit)) &&& 1)

/-! ## Reading a byte buffer -/

/-- The block of `len` buffer bytes starting at `i * len`, as unsigned values. -/
def byteBlock (buffer : List Nat) (len i : Nat) : List Nat :=
  ((buffer.drop (i * len)).take len).map toUnsignedChar

/-! ### Lemmas on the enumeration loops -/

theorem foldl_push_eq_append_map {α β : Type} (f : α → β) (l : List α) (init : List β) :
    l.foldl (fun acc x => acc ++ [f x]) init = init ++ l.map f := by
  induction l generalizing init with
  | nil => simp
  | cons x xs ih => simp [ih]

theorem pushConfigBits_eq (n i : Nat) (configs : List Nat) :
    pushConfigBits n i configs = configs ++ configRow n i := by
  unfold pushConfigBits configRow
  exact foldl_push_eq_append_map _ _ _

theorem length_configRow (n i : Nat) : (configRow n i).length = n := by
  simp [configRow]

theorem getElem?_configRow (n i b : Nat) (hb : b < n) :
    (configRow n i)[b]? = some ((i >>> (n - 1 - b)) &&& 1) := by
  simp [configRow, List.getElem?_map, List.getElem?_range hb]

theorem fillConfigs_succ (t n : Nat) :
    fillConfigs (t + 1) n = fillConfigs t n ++ configRow n t := by
  unfold fillConfigs
  rw [List.range_succ, List.foldl_append]
  simp [pushConfigBits_eq]

theorem length_fillConfigs (t n : Nat) : (fillConfigs t n).length = t * n := by
  induction t with
  | zero => simp [fillConfigs]
  | succ t ih => rw [fillConfigs_succ, List.length_append, ih, length_configRow]; ring

theorem getElem?_fillConfigs (t n i b : Nat) (hi : i < t) (hb : b < n) :
    (fillConfigs t n)[i * n + b]? = some ((i >>> (n - 1 - b)) &&& 1) := by
  induction t with
  | zero => omega
  | succ t ih =>
    rw [fillConfigs_succ]
    by_cases hlt : i < t
    · have hlen : i * n + b < (fillConfigs t n).length := by
        rw [length_fillConfigs]
        calc i * n + b < i * n + n := by omega
          _ = (i + 1) * n := by ring
          _ ≤ t * n := Nat.mul_le_mul_right n hlt
      rw [List.getElem?_append_left hlen]
      exact ih hlt
    · have hit : i = t := by omega
      subst hit
      have hlen : (fillConfigs i n).length ≤ i * n + b := by
        rw [length_fillConfigs]; omega
      rw [List.getElem?_append_right hlen, length_fillConfigs]
      have hsub : i * n + b - i * n = b := by omega
      rw [hsub]
      exact getElem?_configRow n i b hb

theorem configAt_fillConfigs (t n i : Nat) (hi : i < t) :
    configAt (fillConfigs t n) n i = configRow n i := by
  apply List.ext_getElem?
  intro b
  unfold configAt
  rw [List.getElem?_take, List.getElem?_drop]
  by_cases hb : b < n
  · rw [if_pos hb, getElem?_fillConfigs t n i b hi hb, getElem?_configRow n i b hb]
  · rw [if_neg hb]
    have : (configRow n i).length ≤ b := by rw [length_configRow]; omega
    rw [List.getElem?_eq_none this]

theorem binaryValue_append_singleton (l : List Nat) (d : Nat) :
    binaryValue (l ++ [d]) = 2 * binaryValue l + d := by
  simp [binaryValue, List.foldl_append]

theorem configRow_succ (n i : Nat) :
    configRow (n + 1) i = configRow n (i / 2) ++ [i % 2] := by
  unfold configRow
  rw [List.range_succ, List.map_append]
  congr 1
  · apply List.map_congr_left
    intro bit hbit
    have hlt : bit < n := List.mem_range.mp hbit
    have hsh : n + 1 - 1 - bit = (n - 1 - bit) + 1 := by omega
    rw [hsh, Nat.shiftRight_eq_div_pow, Nat.shiftRight_eq_div_pow, Nat.pow_succ,
      Nat.mul_comm, Nat.div_div_eq_div_mul]
  · simp [Nat.and_one_is_mod]

theorem binaryValue_configRow (n : Nat) : ∀ i, binaryValue (configRow n i) = i % 2 ^ n := by
  induction n with
  | zero => intro i; simp [configRow, binaryValue, Nat.mod_one]
  | succ n ih =>
    intro i
    rw [configRow_succ, binaryValue_append_singleton, ih (i / 2)]
    have h : i % 2 ^ (n + 1) = i % 2 + 2 * (i / 2 % 2 ^ n) := by
      rw [Nat.pow_succ, Nat.mul_comm (2 ^ n) 2, Nat.mod_mul]
    omega

theorem mem_configRow_binary (n i x : Nat) (hx : x ∈ configRow n i) : x = 0 ∨ x = 1 := by
  unfold configRow at hx
  rcases List.mem_map.mp hx with ⟨bit, _, rfl⟩
  rw [Nat.and_one_is_mod]
  omega

theorem mem_fillConfigs_binary (t n x : Nat) (hx : x ∈ fillConfigs t n) : x = 0 ∨ x = 1 := by
  induction t with
  | zero => simp [fillConfigs] at hx
  | succ t ih =>
    rw [fillConfigs_succ, List.mem_append] at hx
    rcases hx with h | h
    · exact ih h
    · exact mem_configRow_binary n t x h

theorem shl32_one (n : Nat) (h : n < 32) : shl32 1 n = some (2 ^ n) := by
  unfold shl32 toUInt32 UINT32_RANGE
  rw [if_pos h, Nat.one_mul]
  have : 2 ^ n < 2 ^ 32 := Nat.pow_lt_pow_right (by decide) h
  rw [Nat.mod_eq_of_lt this]

theorem generateAllBinaryConfigs_eq (n : Nat) (h : n < 32) :
    generateAllBinaryConfigs n = some (fillConfigs (2 ^ n) n) := by
  unfold generateAllBinaryConfigs
  rw [shl32_one n h]

theorem mainNumConfigs_eq (n : Nat) (h1 : 1 ≤ n) (h : n < 32) :
    mainNumConfigs n = some (2 ^ n) := by
  unfold mainNumConfigs numConfigsOf
  rw [generateAllBinaryConfigs_eq n h]
  have hn : n ≠ 0 := by omega
  simp only [hn, if_false, length_fillConfigs]
  rw [Nat.mul_div_cancel _ (by omega : 0 < n)]
  unfold toUInt32 UINT32_RANGE
  have : 2 ^ n < 2 ^ 32 := Nat.pow_lt_pow_right (by decide) h
  rw [Nat.mod_eq_of_lt this]

/-- Every `numConfigs` that `main` can compute leaves room for the
`numConfigs + 1` entries of `distribution` in a `uint32_t`. -/
theorem mainNumConfigs_succ_lt (n c : Nat) (h : mainNumConfigs n = some c) :
    c + 1 < 2 ^ 32 := by
  by_cases hn : n < 32
  · by_cases h0 : n = 0
    · subst h0
      have hnone : mainNumConfigs 0 = none := by decide
      rw [hnone] at h
      exact Option.noConfusion h
    · rw [mainNumConfigs_eq n (by omega) hn] at h
      have hc : 2 ^ n = c := Option.some.inj h
      have hle : 2 ^ n ≤ 2 ^ 31 := Nat.pow_le_pow_right (by decide) (by omega)
      omega
  · have hnone : mainNumConfigs n = none := by
      unfold mainNumConfigs generateAllBinaryConfigs shl32
      rw [if_neg hn]
    rw [hnone] at h
    exact Option.noConfusion h

/-! ### Lemmas on `loadAdjacencyMatrices` -/

theorem foldlM_map_push {α β : Type} (f : α → Option β) (g : α → β) (l : List α)
    (h : ∀ x ∈ l, f x = some (g x)) (init : List β) :
    l.foldlM (fun acc x => (f x).map (fun v => acc ++ [v])) init = some (init ++ l.map g) := by
  induction l generalizing init with
  | nil => simp
  | cons x xs ih =>
    have hx : f x = some (g x) := h x (List.mem_cons_self x xs)
    have hxs : ∀ y ∈ xs, f y = some (g y) := fun y hy => h y (List.mem_cons_of_mem x hy)
    rw [List.foldlM_cons, hx]
    simp [ih hxs]

theorem checkedInt_natCast (k : Nat) (h : k < 2 ^ 31) : checkedInt (k : Int) = some (k : Int) := by
  unfold checkedInt INT_MIN INT_MAX
  rw [if_pos]
  constructor <;> omega

theorem readEntry_natCast (buffer : List Nat) (i len j : Nat)
    (hidx : i * len + j < buffer.length) (hsize : buffer.length ≤ 2 ^ 31) :
    readEntry buffer (i : Int) (len : Int) (j : Int)
      = some (toUnsignedChar (buffer.getD (i * len + j) 0)) := by
  have h1 : ((i : Int) * (len : Int)) = ((i * len : Nat) : Int) := by push_cast; rfl
  have h2 : (((i * len : Nat) : Int) + (j : Int)) = ((i * len + j : Nat) : Int) := by
    push_cast; rfl
  unfold readEntry
  rw [h1, checkedInt_natCast (i * len) (by omega)]
  simp only []
  rw [h2, checkedInt_natCast (i * len + j) (by omega)]
  simp only []
  have hneg : ¬ (((i * len + j : Nat) : Int) < 0) := by omega
  rw [if_neg hneg, Int.toNat_ofNat, List.getElem?_eq_getElem hidx]
  simp [List.getD_eq_getElem?_getD, List.getElem?_eq_getElem hidx]

theorem buildMatrix_natCast (buffer : List Nat) (i len : Nat)
    (hblock : (i + 1) * len ≤ buffer.length) (hsize : buffer.length ≤ 2 ^ 31) :
    buildMatrix buffer (i : Int) (len : Int) = some (byteBlock buffer len i) := by
  unfold buildMatrix
  rw [Int.toNat_ofNat]
  have hstep : ∀ j ∈ List.range len,
      (fun j : Nat => readEntry buffer (i : Int) (len : Int) (j : Int)) j
        = some ((fun j : Nat => toUnsignedChar (buffer.getD (i * len + j) 0)) j) := by
    intro j hj
    have hjlt : j < len := List.mem_range.mp hj
    have hidx : i * len + j < buffer.length := by
      have : (i + 1) * len = i * len + len := by ring
      omega
    exact readEntry_natCast buffer i len j hidx hsize
  have hfold := foldlM_map_push
    (fun j : Nat => readEntry buffer (i : Int) (len : Int) (j : Int))
    (fun j : Nat => toUnsignedChar (buffer.getD (i * len + j) 0)) (List.range len) hstep []
  simp only [List.nil_append] at hfold
  rw [hfold]
  congr 1
  apply List.ext_getElem?
  intro j
  unfold byteBlock
  rw [List.getElem?_map, List.getElem?_map, List.getElem?_take, List.getElem?_drop]
  by_cases hj : j < len
  · have hidx : i * len + j < buffer.length := by
      have : (i + 1) * len = i * len + len := by ring
      omega
    rw [List.getElem?_range hj, if_pos hj, List.getElem?_eq_getElem hidx]
    simp [List.getD_eq_getElem?_getD, List.getElem?_eq_getElem hidx]
  · rw [if_neg hj, List.getElem?_eq_none (by simp; omega)]
    rfl

theorem buildMatrices_natCast (buffer : List Nat) (m len : Nat)
    (hblocks : m * len ≤ buffer.length) (hsize : buffer.length ≤ 2 ^ 31) :
    buildMatrices buffer (m : Int) (len : Int)
      = some ((List.range m).map (byteBlock buffer len)) := by
  unfold buildMatrices
  rw [Int.toNat_ofNat]
  have hstep : ∀ i ∈ List.range m,
      (fun i : Nat => buildMatrix buffer (i : Int) (len : Int)) i
        = some (byteBlock buffer len i) := by
    intro i hi
    have hilt : i < m := List.mem_range.mp hi
    have hblock : (i + 1) * len ≤ buffer.length :=
      le_trans (Nat.mul_le_mul_right len hilt) hblocks
    exact buildMatrix_natCast buffer i len hblock hsize
  have hfold := foldlM_map_push
    (fun i : Nat => buildMatrix buffer (i : Int) (len : Int))
    (byteBlock buffer len) (List.range m) hstep []
  simp only [List.nil_append] at hfold
  exact hfold

theorem length_byteBlock (buffer : List Nat) (len i : Nat)
    (hblock : (i + 1) * len ≤ buffer.length) : (byteBlock buffer len i).length = len := by
  unfold byteBlock
  rw [List.length_map, List.length_take, List.length_drop]
  have : (i + 1) * len = i * len + len := by ring
  omega

theorem getElem?_byteBlock (buffer : List Nat) (len i j : Nat) (hj : j < len) :
    (byteBlock buffer len i)[j]? = (buffer[i * len + j]?).map toUnsignedChar := by
  unfold byteBlock
  rw [List.getElem?_map, List.getElem?_take, if_pos hj, List.getElem?_drop]

theorem flattenMatrices_eq (ms : List (List Nat)) : flattenMatrices ms = ms.flatten := by
  have h : ∀ (l : List (List Nat)) (init : List Nat),
      l.foldl (fun flat matrix => flat ++ matrix) init = init ++ l.flatten := by
    intro l
    induction l with
    | nil => intro init; simp
    | cons x xs ih => intro init; simp [ih]
  unfold flattenMatrices
  rw [h]
  simp

theorem flatten_byteBlocks (buffer : List Nat) (len m : Nat) :
    ((List.range m).map (byteBlock buffer len)).flatten
      = (buffer.take (m * len)).map toUnsignedChar := by
  induction m with
  | zero => simp
  | succ m ih =>
    rw [List.range_succ, List.map_append, List.flatten_append, ih]
    have hmul : (m + 1) * len = m * len + len := by ring
    rw [hmul, List.take_add, List.map_append]
    simp [byteBlock]

theorem map_toUnsignedChar_of_bytes (bytes : List Nat) (h : ∀ b ∈ bytes, b < 256) :
    bytes.map toUnsignedChar = bytes := by
  induction bytes with
  | nil => rfl
  | cons b bs ih =>
    have hb : b < 256 := h b (List.mem_cons_self b bs)
    have hbs : ∀ c ∈ bs, c < 256 := fun c hc => h c (List.mem_cons_of_mem b hc)
    rw [List.map_cons, ih hbs]
    unfold toUnsignedChar
    rw [Nat.mod_eq_of_lt hb]

theorem toInt32_natCast (k : Nat) (h : k < 2 ^ 31) : toInt32 (k : Int) = (k : Int) := by
  unfold toInt32
  omega

/-- On a file that opens and reads, of `m * (n * n)` bytes with both `n * n`
and the length representable as `int`, the loader returns the `m` blocks. -/
theorem loadAdjacencyMatrices_blocks (file : BinaryFile) (n m : Nat) (h1 : 1 ≤ n)
    (hopen : file.opens = true) (hread : file.readOk = true)
    (hlen : file.bytes.length = m * (n * n))
    (hn : n * n < 2 ^ 31) (hsize : file.bytes.length < 2 ^ 31) :
    loadAdjacencyMatrices file (n : Int)
      = some ((List.range m).map (byteBlock file.bytes (n * n))) := by
  have hpos : 0 < n * n := Nat.mul_pos h1 h1
  have hm : m < 2 ^ 31 := by
    have : m ≤ m * (n * n) := Nat.le_mul_of_pos_right m hpos
    omega
  have hsq : ((n : Int) * (n : Int)) = ((n * n : Nat) : Int) := by push_cast; rfl
  unfold loadAdjacencyMatrices
  simp only [hopen, hread, Bool.true_eq_false, if_false]
  rw [hsq, checkedInt_natCast (n * n) hn]
  simp only []
  have hne : ¬ (((n * n : Nat) : Int) = 0) := by omega
  rw [if_neg hne]
  have hmod : Int.tmod (file.bytes.length : Int) ((n * n : Nat) : Int) = 0 := by
    rw [← Int.ofNat_tmod, hlen, Nat.mul_mod_left]
    rfl
  have hdiv : Int.tdiv (file.bytes.length : Int) ((n * n : Nat) : Int) = (m : Int) := by
    rw [← Int.ofNat_tdiv, hlen, Nat.mul_div_cancel _ hpos]
  rw [hdiv, toInt32_natCast m hm]
  simp only [hmod, ne_eq, not_true_eq_false, if_false]
  exact buildMatrices_natCast file.bytes m (n * n) (by omega) (by omega)

/-! ### Lemmas on the aggregation loop -/

theorem toUInt32_of_lt (x : Nat) (h : x < 2 ^ 32) : toUInt32 x = x := by
  unfold toUInt32 UINT32_RANGE
  exact Nat.mod_eq_of_lt h

theorem sum_set_succ (l : List Nat) : ∀ (r c : Nat), l[r]? = some c →
    (l.set r (c + 1)).sum = l.sum + 1 := by
  induction l with
  | nil => intro r c h; simp at h
  | cons x xs ih =>
    intro r c h
    cases r with
    | zero =>
      simp only [List.getElem?_cons_zero, Option.some.injEq] at h
      subst h
      simp only [List.set_cons_zero, List.sum_cons]
      omega
    | succ r =>
      simp only [List.getElem?_cons_succ] at h
      simp only [List.set_cons_succ, List.sum_cons, ih r c h]
      omega

theorem count_one_map_stableFlag (numConfigs : Nat) (results : List Nat) :
    (results.map (stableFlag numConfigs)).count 1 = results.count numConfigs := by
  induction results with
  | nil => rfl
  | cons r rs ih =>
    rw [List.map_cons, List.count_cons, List.count_cons, ih]
    unfold stableFlag
    by_cases h : r = numConfigs
    · simp [h]
    · simp [h]

/-- The invariant of the aggregation loop, from an arbitrary state whose
counters cannot wrap on the remaining results. -/
theorem foldlM_aggregateStep (numConfigs : Nat) (results : List Nat) :
    ∀ st : AggState,
      st.distribution.length = numConfigs + 1 →
      (∀ r ∈ results, r ≤ numConfigs) →
      (∀ k, st.distribution.getD k 0 + results.count k < 2 ^ 32) →
      st.totalEstaveis + results.count numConfigs < 2 ^ 32 →
      ∃ st', results.foldlM (aggregateStep numConfigs) st = some st' ∧
        st'.distribution.length = numConfigs + 1 ∧
        (∀ k, st'.distribution.getD k 0 = st.distribution.getD k 0 + results.count k) ∧
        st'.distribution.sum = st.distribution.sum + results.length ∧
        st'.totalEstaveis = st.totalEstaveis + results.count numConfigs ∧
        st'.flags = st.flags ++ results.map (stableFlag numConfigs) := by
  induction results with
  | nil =>
    intro st hlen _ _ _
    exact ⟨st, rfl, hlen, by simp, by simp, by simp, by simp⟩
  | cons r rs ih =>
    intro st hlen hr hdist htot
    have hrle : r ≤ numConfigs := hr r (List.mem_cons_self r rs)
    have hrs : ∀ x ∈ rs, x ≤ numConfigs := fun x hx => hr x (List.mem_cons_of_mem r hx)
    have hrlt : r < st.distribution.length := by omega
    have hget : st.distribution[r]? = some (st.distribution[r]) :=
      List.getElem?_eq_getElem hrlt
    have hgetD : st.distribution.getD r 0 = st.distribution[r] := by
      simp [List.getD_eq_getElem?_getD, hget]
    have hc : st.distribution[r] + 1 < 2 ^ 32 := by
      have h := hdist r
      rw [hgetD, List.count_cons_self] at h
      omega
    have hstep : aggregateStep numConfigs st r = some
        { distribution := st.distribution.set r (st.distribution[r] + 1)
          totalEstaveis :=
            if r = numConfigs then st.totalEstaveis + 1 else st.totalEstaveis
          flags := st.flags ++ [stableFlag numConfigs r] } := by
      unfold aggregateStep
      rw [hget]
      simp only [toUInt32_of_lt _ hc]
      by_cases hrn : r = numConfigs
      · have ht : st.totalEstaveis + 1 < 2 ^ 32 := by
          have h := htot
          rw [← hrn, List.count_cons_self] at h
          omega
        simp only [hrn, if_true, toUInt32_of_lt _ ht]
      · simp only [hrn, if_false]
    have hgetD1 : ∀ k, (st.distribution.set r (st.distribution[r] + 1)).getD k 0
        = st.distribution.getD k 0 + (if r = k then 1 else 0) := by
      intro k
      simp only [List.getD_eq_getElem?_getD, List.getElem?_set]
      by_cases hk : r = k
      · subst hk
        simp [hrlt, hget]
      · simp [hk]
    have hcount : ∀ k, (r :: rs).count k = rs.count k + (if r = k then 1 else 0) := by
      intro k
      rw [List.count_cons]
      by_cases hk : r = k
      · simp [hk]
      · simp [hk]
    obtain ⟨st', hfold, hlen', hd', hsum', htot', hflags'⟩ :=
      ih { distribution := st.distribution.set r (st.distribution[r] + 1)
           totalEstaveis :=
             if r = numConfigs then st.totalEstaveis + 1 else st.totalEstaveis
           flags := st.flags ++ [stableFlag numConfigs r] }
        (by simp [hlen]) hrs
        (by
          intro k
          have h := hdist k
          rw [hcount k] at h
          simp only [hgetD1 k]
          omega)
        (by
          have h := htot
          rw [hcount numConfigs] at h
          by_cases hrn : r = numConfigs
          · simp only [hrn, if_true] at h ⊢; omega
          · simp only [hrn, if_false] at h ⊢; omega)
    refine ⟨st', ?_, hlen', ?_, ?_, ?_, ?_⟩
    · rw [List.foldlM_cons, hstep]
      exact hfold
    · intro k
      rw [hd' k, hcount k]
      simp only [hgetD1 k]
      omega
    · rw [hsum']
      simp only [sum_set_succ st.distribution r _ hget, List.length_cons]
      omega
    · rw [htot', hcount numConfigs]
      by_cases hrn : r = numConfigs
      · simp only [hrn, if_true]; omega
      · simp only [hrn, if_false]; omega
    · rw [hflags']
      simp

/-- The aggregation loop of `main` on in-range results, described in full. -/
theorem aggregate_spec (numConfigs : Nat) (results : List Nat)
    (hN : numConfigs + 1 < 2 ^ 32) (hlen : results.length < 2 ^ 32)
    (hr : ∀ r ∈ results, r ≤ numConfigs) :
    ∃ st, aggregate numConfigs results = some st ∧
      st.distribution.length = numConfigs + 1 ∧
      (∀ k, st.distribution.getD k 0 = results.count k) ∧
      st.distribution.sum = results.length ∧
      st.totalEstaveis = results.count numConfigs ∧
      st.flags = results.map (stableFlag numConfigs) := by
  have hinit : (aggregateInit numConfigs).distribution = List.replicate (numConfigs + 1) 0 := by
    unfold aggregateInit
    simp only [toUInt32_of_lt _ hN]
  have hcnt : ∀ k, results.count k ≤ results.length := fun k => List.count_le_length k results
  have hzero : ∀ k, (aggregateInit numConfigs).distribution.getD k 0 = 0 := by
    intro k
    rw [hinit]
    simp only [List.getD_eq_getElem?_getD, List.getElem?_replicate]
    by_cases hk : k < numConfigs + 1
    · simp [hk]
    · simp [hk]
  obtain ⟨st, hfold, hl, hd, hs, ht, hf⟩ :=
    foldlM_aggregateStep numConfigs results (aggregateInit numConfigs)
      (by rw [hinit]; simp)
      hr
      (by intro k; rw [hzero k]; have := hcnt k; omega)
      (by
        have := hcnt numConfigs
        have h0 : (aggregateInit numConfigs).totalEstaveis = 0 := rfl
        omega)
  refine ⟨st, hfold, hl, ?_, ?_, ?_, ?_⟩
  · intro k; rw [hd k, hzero k]; omega
  · rw [hs, hinit]; simp
  · rw [ht]; have h0 : (aggregateInit numConfigs).totalEstaveis = 0 := rfl; omega
  · rw [hf]; have h0 : (aggregateInit numConfigs).flags = [] := rfl; rw [h0]; simp

/-! ### Lemmas on the emitted tables -/

theorem foldlM_csv_rows (d : List Nat) (l : List Nat) (h : ∀ k ∈ l, k < d.length) :
    ∀ init : List (Nat × Nat),
      l.foldlM (fun rows k => (d[k]?).map (fun freq => rows ++ [(k, freq)])) init
        = some (init ++ l.map (fun k => (k, d.getD k 0))) := by
  induction l with
  | nil => intro init; simp
  | cons k ks ih =>
    intro init
    have hk : k < d.length := h k (List.mem_cons_self k ks)
    have hks : ∀ x ∈ ks, x < d.length := fun x hx => h x (List.mem_cons_of_mem k hx)
    rw [List.foldlM_cons, List.getElem?_eq_getElem hk]
    simp [ih hks, List.getElem?_eq_getElem hk]

theorem foldlM_printed_rows (d : List Nat) (l : List Nat) (h : ∀ k ∈ l, k < d.length) :
    ∀ init : List (Nat × Nat),
      l.foldlM (fun rows x =>
          (d[x]?).map (fun freq => if freq = 0 then rows else rows ++ [(x, freq)])) init
        = some (init ++ (l.filter (fun k => decide (d.getD k 0 ≠ 0))).map
            (fun k => (k, d.getD k 0))) := by
  induction l with
  | nil => intro init; simp
  | cons k ks ih =>
    intro init
    have hk : k < d.length := h k (List.mem_cons_self k ks)
    have hks : ∀ x ∈ ks, x < d.length := fun x hx => h x (List.mem_cons_of_mem k hx)
    rw [List.foldlM_cons, List.getElem?_eq_getElem hk]
    by_cases hz : d[k] = 0
    · simp [ih hks, List.getElem?_eq_getElem hk, hz]
    · simp [ih hks, List.getElem?_eq_getElem hk, hz]

/-- The CSV loop writes one row for every `k` in `0..numConfigs`, zero
frequencies included. -/
theorem csvTable_eq (numConfigs : Nat) (d : List Nat) (hd : d.length = numConfigs + 1) :
    csvTable numConfigs d
      = some ((List.range (numConfigs + 1)).map (fun k => (k, d.getD k 0))) := by
  unfold csvTable
  rw [foldlM_csv_rows d _ (by intro k hk; rw [hd]; exact List.mem_range.mp hk) []]
  simp

/-- The printing loop writes a row exactly for the `k` with a nonzero
frequency, in ascending order. -/
theorem printedTable_eq (numConfigs : Nat) (d : List Nat) (hd : d.length = numConfigs + 1) :
    printedTable numConfigs d
      = some (((List.range (numConfigs + 1)).filter (fun k => decide (d.getD k 0 ≠ 0))).map
          (fun k => (k, d.getD k 0))) := by
  unfold printedTable
  rw [foldlM_printed_rows d _ (by intro k hk; rw [hd]; exact List.mem_range.mp hk) []]
  simp

/-! ## The claims -/

/-- C1: for per-graph convergence counts `results`, each in `0..numConfigs`, the
aggregation loop of `main` runs through and leaves, for every `k` in
`0..numConfigs`, `distribution[k]` equal to the number of graphs `i` with
`results[i] = k`.  The two size hypotheses are those of the `uint32_t`
variables of `main`: `numGraphs = results.length` is one, and `numConfigs + 1`
fits by `mainNumConfigs_succ_lt`. -/
theorem distribution_counts_graphs (numConfigs : Nat) (results : List Nat)
    (hN : numConfigs + 1 < 2 ^ 32) (hlen : results.length < 2 ^ 32)
    (hr : ∀ r ∈ results, r ≤ numConfigs) :
    ∃ st, aggregate numConfigs results = some st ∧
      st.distribution.length = numConfigs + 1 ∧
      ∀ k, k ≤ numConfigs → st.distribution[k]? = some (results.count k) := by
  obtain ⟨st, hagg, hl, hd, _, _, _⟩ := aggregate_spec numConfigs results hN hlen hr
  refine ⟨st, hagg, hl, ?_⟩
  intro k hk
  have hlt : k < st.distribution.length := by omega
  have h := hd k
  rw [List.getD_eq_getElem?_getD, List.getElem?_eq_getElem hlt] at h
  rw [List.getElem?_eq_getElem hlt]
  simpa using h

/-- Witness for C1: five graphs with counts in `0..4`. -/
theorem distribution_counts_graphs_witness :
    (4 + 1 < 2 ^ 32 ∧ [4, 0, 4, 2, 1].length < 2 ^ 32 ∧ ∀ r ∈ [4, 0, 4, 2, 1], r ≤ 4) ∧
    ∃ st, aggregate 4 [4, 0, 4, 2, 1] = some st ∧
      st.distribution.length = 4 + 1 ∧
      ∀ k, k ≤ 4 → st.distribution[k]? = some ([4, 0, 4, 2, 1].count k) :=
  ⟨⟨by decide, by decide, by decide⟩,
    distribution_counts_graphs 4 [4, 0, 4, 2, 1] (by decide) (by decide) (by decide)⟩

/-- C4: sum invariant.  For per-graph convergence counts `results`, each in
`0..numConfigs`, after the aggregation loop of `main` the entries of
`distribution` (indices `0..numConfigs`) sum to `numGraphs`. -/
theorem distribution_sum_eq_numGraphs (numConfigs : Nat) (results : List Nat)
    (hN : numConfigs + 1 < 2 ^ 32) (hlen : results.length < 2 ^ 32)
    (hr : ∀ r ∈ results, r ≤ numConfigs) :
    ∃ st, aggregate numConfigs results = some st ∧
      st.distribution.length = numConfigs + 1 ∧
      st.distribution.sum = results.length := by
  obtain ⟨st, hagg, hl, _, hs, _, _⟩ := aggregate_spec numConfigs results hN hlen hr
  exact ⟨st, hagg, hl, hs⟩

/-- Witness for C4: six graphs with counts in `0..8`. -/
theorem distribution_sum_eq_numGraphs_witness :
    (8 + 1 < 2 ^ 32 ∧ [8, 2, 2, 0, 8, 8].length < 2 ^ 32 ∧ ∀ r ∈ [8, 2, 2, 0, 8, 8], r ≤ 8) ∧
    ∃ st, aggregate 8 [8, 2, 2, 0, 8, 8] = some st ∧
      st.distribution.length = 8 + 1 ∧
      st.distribution.sum = [8, 2, 2, 0, 8, 8].length :=
  ⟨⟨by decide, by decide, by decide⟩,
    distribution_sum_eq_numGraphs 8 [8, 2, 2, 0, 8, 8] (by decide) (by decide) (by decide)⟩

/-- C5: for per-graph convergence counts `results`, each in `0..numConfigs`, the
aggregation loop writes one flag per graph, the flag of graph `i` is 1 if and
only if `results[i] = numConfigs` and 0 otherwise, and `totalEstaveis` equals
the number of graphs whose flag is 1. -/
theorem stable_flag_iff_and_total (numConfigs : Nat) (results : List Nat)
    (hN : numConfigs + 1 < 2 ^ 32) (hlen : results.length < 2 ^ 32)
    (hr : ∀ r ∈ results, r ≤ numConfigs) :
    ∃ st, aggregate numConfigs results = some st ∧
      st.flags.length = results.length ∧
      (∀ i r : Nat, results[i]? = some r →
        ∃ flag, st.flags[i]? = some flag ∧
          (flag = 1 ↔ r = numConfigs) ∧ (flag = 0 ↔ r ≠ numConfigs)) ∧
      st.totalEstaveis = st.flags.count 1 := by
  obtain ⟨st, hagg, _, _, _, ht, hf⟩ := aggregate_spec numConfigs results hN hlen hr
  refine ⟨st, hagg, ?_, ?_, ?_⟩
  · rw [hf, List.length_map]
  · intro i r hir
    refine ⟨stableFlag numConfigs r, ?_, ?_, ?_⟩
    · rw [hf, List.getElem?_map, hir]
      rfl
    · unfold stableFlag
      by_cases h : r = numConfigs
      · simp [h]
      · simp [h]
    · unfold stableFlag
      by_cases h : r = numConfigs
      · simp [h]
      · simp [h]
  · rw [ht, hf, count_one_map_stableFlag]

/-- Witness for C5: four graphs with counts in `0..4`. -/
theorem stable_flag_iff_and_total_witness :
    (4 + 1 < 2 ^ 32 ∧ [4, 3, 4, 0].length < 2 ^ 32 ∧ ∀ r ∈ [4, 3, 4, 0], r ≤ 4) ∧
    ∃ st, aggregate 4 [4, 3, 4, 0] = some st ∧
      st.flags.length = [4, 3, 4, 0].length ∧
      (∀ i r : Nat, [4, 3, 4, 0][i]? = some r →
        ∃ flag, st.flags[i]? = some flag ∧
          (flag = 1 ↔ r = 4) ∧ (flag = 0 ↔ r ≠ 4)) ∧
      st.totalEstaveis = st.flags.count 1 :=
  ⟨⟨by decide, by decide, by decide⟩,
    stable_flag_iff_and_total 4 [4, 3, 4, 0] (by decide) (by decide) (by decide)⟩

/-- C2 (as stated, at `n = 32`): `1u << 32` is not defined, so the function has
no defined result there; and whatever 32-bit value `totalConfigs` takes, the
loops cannot produce the `32 * 2 ^ 32` entries of `2 ^ 32` configurations. -/
theorem generateAllBinaryConfigs_32_not_all :
    (¬ ∃ configs, generateAllBinaryConfigs 32 = some configs ∧
        configs.length = 32 * 2 ^ 32) ∧
    ∀ totalConfigs, totalConfigs < 2 ^ 32 →
      (fillConfigs totalConfigs 32).length ≠ 32 * 2 ^ 32 := by
  constructor
  · rintro ⟨configs, h, _⟩
    have hnone : generateAllBinaryConfigs 32 = none := by decide
    rw [hnone] at h
    exact Option.noConfusion h
  · intro t ht
    rw [length_fillConfigs]
    omega

/-- C2 (amended): for every `n` with `1 ≤ n ≤ 31`, `generateAllBinaryConfigs(n)`
returns a flat vector of `n * 2 ^ n` entries, all in `{0, 1}`, holding `2 ^ n`
configurations of length `n` (so that `main` computes `numConfigs = 2 ^ n`),
and these configurations are pairwise distinct. -/
theorem generateAllBinaryConfigs_enumerates (n : Nat) (h1 : 1 ≤ n) (h31 : n ≤ 31) :
    ∃ configs, generateAllBinaryConfigs n = some configs ∧
      mainNumConfigs n = some (2 ^ n) ∧
      configs.length = n * 2 ^ n ∧
      (∀ x ∈ configs, x = 0 ∨ x = 1) ∧
      (∀ i, i < 2 ^ n → (configAt configs n i).length = n) ∧
      (∀ i j, i < 2 ^ n → j < 2 ^ n → i ≠ j →
        configAt configs n i ≠ configAt configs n j) := by
  have h32 : n < 32 := by omega
  refine ⟨fillConfigs (2 ^ n) n, generateAllBinaryConfigs_eq n h32,
    mainNumConfigs_eq n h1 h32, ?_, ?_, ?_, ?_⟩
  · rw [length_fillConfigs, Nat.mul_comm]
  · exact fun x hx => mem_fillConfigs_binary (2 ^ n) n x hx
  · intro i hi
    rw [configAt_fillConfigs (2 ^ n) n i hi, length_configRow]
  · intro i j hi hj hij heq
    rw [configAt_fillConfigs (2 ^ n) n i hi, configAt_fillConfigs (2 ^ n) n j hj] at heq
    have hv := congrArg binaryValue heq
    rw [binaryValue_configRow, binaryValue_configRow, Nat.mod_eq_of_lt hi,
      Nat.mod_eq_of_lt hj] at hv
    exact hij hv

/-- Witness for C2 (amended): `n = 3`. -/
theorem generateAllBinaryConfigs_enumerates_witness :
    (1 ≤ 3 ∧ 3 ≤ 31) ∧
    ∃ configs, generateAllBinaryConfigs 3 = some configs ∧
      mainNumConfigs 3 = some (2 ^ 3) ∧
      configs.length = 3 * 2 ^ 3 ∧
      (∀ x ∈ configs, x = 0 ∨ x = 1) ∧
      (∀ i, i < 2 ^ 3 → (configAt configs 3 i).length = 3) ∧
      (∀ i j, i < 2 ^ 3 → j < 2 ^ 3 → i ≠ j →
        configAt configs 3 i ≠ configAt configs 3 j) :=
  ⟨⟨by decide, by decide⟩, generateAllBinaryConfigs_enumerates 3 (by decide) (by decide)⟩

/-- C3 (as stated, at `n = 32`, `i = 2 ^ 32 - 1`, `b = 0`): the function has no
defined result, and whatever 32-bit value `totalConfigs` takes, the vector has
no entry at flat index `i * n + b`. -/
theorem generateAllBinaryConfigs_32_no_entry :
    (¬ ∃ configs, generateAllBinaryConfigs 32 = some configs ∧
        configs[(2 ^ 32 - 1) * 32 + 0]? = some ((2 ^ 32 - 1) / 2 ^ (32 - 1 - 0) % 2)) ∧
    ∀ totalConfigs, totalConfigs < 2 ^ 32 →
      (fillConfigs totalConfigs 32)[(2 ^ 32 - 1) * 32 + 0]? = none := by
  constructor
  · rintro ⟨configs, h, _⟩
    have hnone : generateAllBinaryConfigs 32 = none := by decide
    rw [hnone] at h
    exact Option.noConfusion h
  · intro t ht
    apply List.getElem?_eq_none
    rw [length_fillConfigs]
    omega

/-- C3 (amended): for every `n` with `1 ≤ n ≤ 31`, every `i < 2 ^ n` and every
position `b < n`, the entry of `generateAllBinaryConfigs(n)` at flat index
`i * n + b` is bit `n - 1 - b` of `i`; and configuration `i`, read as a binary
numeral with the most significant digit first, has value `i`. -/
theorem generateAllBinaryConfigs_msb_first (n i b : Nat) (h1 : 1 ≤ n) (h31 : n ≤ 31)
    (hi : i < 2 ^ n) (hb : b < n) :
    ∃ configs, generateAllBinaryConfigs n = some configs ∧
      configs[i * n + b]? = some (i / 2 ^ (n - 1 - b) % 2) ∧
      binaryValue (configAt configs n i) = i := by
  have h32 : n < 32 := by omega
  refine ⟨fillConfigs (2 ^ n) n, generateAllBinaryConfigs_eq n h32, ?_, ?_⟩
  · rw [getElem?_fillConfigs (2 ^ n) n i b hi hb, Nat.and_one_is_mod,
      Nat.shiftRight_eq_div_pow]
  · rw [configAt_fillConfigs (2 ^ n) n i hi, binaryValue_configRow, Nat.mod_eq_of_lt hi]

/-- Witness for C3 (amended): `n = 4`, `i = 11`, `b = 1`. -/
theorem generateAllBinaryConfigs_msb_first_witness :
    (1 ≤ 4 ∧ 4 ≤ 31 ∧ 11 < 2 ^ 4 ∧ 1 < 4) ∧
    ∃ configs, generateAllBinaryConfigs 4 = some configs ∧
      configs[11 * 4 + 1]? = some (11 / 2 ^ (4 - 1 - 1) % 2) ∧
      binaryValue (configAt configs 4 11) = 11 :=
  ⟨⟨by decide, by decide, by decide, by decide⟩,
    generateAllBinaryConfigs_msb_first 4 11 1 (by decide) (by decide) (by decide) (by decide)⟩

/-- A file of exactly `2 ^ 31` bytes loaded with matrix size 1: the matrix
count `2 ^ 31` does not fit `int numMatrices`, the converted value is negative
and the loop body never runs. -/
theorem loadAdjacencyMatrices_of_length_two_pow_31 (bytes : List Nat)
    (hlen : bytes.length = 2 ^ 31) :
    loadAdjacencyMatrices { opens := true, bytes := bytes, readOk := true } 1 = some [] := by
  have hc : checkedInt ((1 : Int) * 1) = some 1 := by decide
  have hmod : Int.tmod ((2 ^ 31 : Nat) : Int) 1 = 0 := by decide
  have hdiv : toInt32 (Int.tdiv ((2 ^ 31 : Nat) : Int) 1) = -(2 ^ 31) := by decide
  unfold loadAdjacencyMatrices
  simp only [Bool.true_eq_false, if_false, hlen, hc]
  rw [if_neg (by decide), hdiv]
  simp only [hmod, ne_eq, not_true_eq_false, if_false]
  unfold buildMatrices
  have htn : (-(2 ^ 31) : Int).toNat = 0 := by decide
  rw [htn]
  rfl

/-- C6 (as stated, at `n = 1` with a file of `2 ^ 31` zero bytes, and at
`n = 65536` with an empty file): the first returns no matrix although the file
holds `2 ^ 31` blocks of `1 * 1` bytes; in the second `n * n` overflows `int`
and the function has no defined result, although the file holds `0` blocks. -/
theorem loadAdjacencyMatrices_large_inputs :
    ((List.replicate (2 ^ 31) 0).length = 2 ^ 31 * (1 * 1) ∧
      loadAdjacencyMatrices
        { opens := true, bytes := List.replicate (2 ^ 31) 0, readOk := true } 1 = some []) ∧
    (([] : List Nat).length = 0 * (65536 * 65536) ∧
      loadAdjacencyMatrices { opens := true, bytes := [], readOk := true } 65536 = none) := by
  refine ⟨⟨?_, ?_⟩, ⟨by decide, by decide⟩⟩
  · rw [List.length_replicate]
    decide
  · exact loadAdjacencyMatrices_of_length_two_pow_31 _ (List.length_replicate _ _)

/-- C6 (amended): for every `n ≥ 1` with `n * n < 2 ^ 31` and every file that
opens and reads, holding `m * n * n < 2 ^ 31` bytes, `loadAdjacencyMatrices`
returns exactly `m` matrices in file order, each with `n * n` entries, entry
`j` of matrix `i` being the unsigned value (`0..255`) of byte `i * n * n + j`;
and the concatenation that `main` builds from them is the file content. -/
theorem loadAdjacencyMatrices_roundtrip (file : BinaryFile) (n m : Nat) (h1 : 1 ≤ n)
    (hopen : file.opens = true) (hread : file.readOk = true)
    (hbytes : ∀ b ∈ file.bytes, b < 256)
    (hlen : file.bytes.length = m * (n * n))
    (hn : n * n < 2 ^ 31) (hsize : file.bytes.length < 2 ^ 31) :
    ∃ matrices, loadAdjacencyMatrices file (n : Int) = some matrices ∧
      matrices.length = m ∧
      (∀ i, i < m → ∃ matrix, matrices[i]? = some matrix ∧ matrix.length = n * n ∧
        ∀ j, j < n * n → ∃ v, matrix[j]? = some v ∧
          file.bytes[i * (n * n) + j]? = some v ∧ v < 256) ∧
      flattenMatrices matrices = file.bytes := by
  refine ⟨(List.range m).map (byteBlock file.bytes (n * n)),
    loadAdjacencyMatrices_blocks file n m h1 hopen hread hlen hn hsize, by simp, ?_, ?_⟩
  · intro i hi
    have hblock : (i + 1) * (n * n) ≤ file.bytes.length := by
      rw [hlen]
      exact Nat.mul_le_mul_right (n * n) hi
    refine ⟨byteBlock file.bytes (n * n) i, ?_, length_byteBlock _ _ _ hblock, ?_⟩
    · rw [List.getElem?_map, List.getElem?_range hi]
      rfl
    · intro j hj
      have hidx : i * (n * n) + j < file.bytes.length := by
        have : (i + 1) * (n * n) = i * (n * n) + n * n := by ring
        omega
      have hv : file.bytes[i * (n * n) + j] < 256 :=
        hbytes _ (List.getElem_mem hidx)
      refine ⟨file.bytes[i * (n * n) + j], ?_, List.getElem?_eq_getElem hidx, hv⟩
      rw [getElem?_byteBlock _ _ _ _ hj, List.getElem?_eq_getElem hidx]
      simp only [Option.map_some', toUnsignedChar, Nat.mod_eq_of_lt hv]
  · rw [flattenMatrices_eq, flatten_byteBlocks, ← hlen, List.take_length]
    exact map_toUnsignedChar_of_bytes _ hbytes

/-- Witness for C6 (amended): two `2 x 2` matrices in an eight-byte file. -/
theorem loadAdjacencyMatrices_roundtrip_witness :
    (1 ≤ 2 ∧ (∀ b ∈ [0, 1, 1, 0, 255, 7, 128, 3], b < 256) ∧
      [0, 1, 1, 0, 255, 7, 128, 3].length = 2 * (2 * 2) ∧ 2 * 2 < 2 ^ 31 ∧
      [0, 1, 1, 0, 255, 7, 128, 3].length < 2 ^ 31) ∧
    ∃ matrices,
      loadAdjacencyMatrices
        { opens := true, bytes := [0, 1, 1, 0, 255, 7, 128, 3], readOk := true }
        ((2 : Nat) : Int) = some matrices ∧
      matrices.length = 2 ∧
      (∀ i, i < 2 → ∃ matrix, matrices[i]? = some matrix ∧ matrix.length = 2 * 2 ∧
        ∀ j, j < 2 * 2 → ∃ v, matrix[j]? = some v ∧
          [0, 1, 1, 0, 255, 7, 128, 3][i * (2 * 2) + j]? = some v ∧ v < 256) ∧
      flattenMatrices matrices = [0, 1, 1, 0, 255, 7, 128, 3] :=
  ⟨⟨by decide, by decide, by decide, by decide, by decide⟩,
    loadAdjacencyMatrices_roundtrip
      { opens := true, bytes := [0, 1, 1, 0, 255, 7, 128, 3], readOk := true } 2 2
      (by decide) rfl rfl (by decide) (by decide) (by decide) (by decide)⟩

/-- C7 (as stated, at matrix size 0 and at matrix size 65536, with a one-byte
file): the length 1 is not a multiple of `n * n`, yet the function does not
return the empty vector: at 0 the expression `fileSize % matrixLen` divides by
zero, at 65536 the product `matrixSize * matrixSize` overflows `int`. -/
theorem loadAdjacencyMatrices_size_zero_undefined :
    (¬ ((0 : Int) * 0 ∣ (([1] : List Nat).length : Int)) ∧
      loadAdjacencyMatrices { opens := true, bytes := [1], readOk := true } 0 ≠ some []) ∧
    (¬ ((65536 : Int) * 65536 ∣ (([1] : List Nat).length : Int)) ∧
      loadAdjacencyMatrices { opens := true, bytes := [1], readOk := true } 65536
        ≠ some []) := by
  decide

/-- C7 (amended): for every matrix size `n ≠ 0` whose square fits an `int` and
every file whose length is not a multiple of `n * n`, `loadAdjacencyMatrices`
returns the empty vector. -/
theorem loadAdjacencyMatrices_rejects_ragged (file : BinaryFile) (matrixSize : Int)
    (h0 : matrixSize ≠ 0) (hfit : matrixSize * matrixSize ≤ INT_MAX)
    (hnot : ¬ (matrixSize * matrixSize ∣ (file.bytes.length : Int))) :
    loadAdjacencyMatrices file matrixSize = some [] := by
  unfold loadAdjacencyMatrices
  by_cases hopen : file.opens = false
  · rw [if_pos hopen]
  · rw [if_neg hopen]
    have hnonneg : 0 ≤ matrixSize * matrixSize := mul_self_nonneg matrixSize
    have hc : checkedInt (matrixSize * matrixSize) = some (matrixSize * matrixSize) := by
      unfold checkedInt
      rw [if_pos]
      refine ⟨?_, hfit⟩
      unfold INT_MIN
      omega
    have hne : ¬ (matrixSize * matrixSize = 0) := by
      intro h
      rcases mul_self_eq_zero.mp h with h' 
      exact h0 h'
    have hmod : Int.tmod (file.bytes.length : Int) (matrixSize * matrixSize) ≠ 0 :=
      fun h => hnot (Int.dvd_of_tmod_eq_zero h)
    simp only [hc, hne, if_false, hmod, ne_eq, not_false_eq_true, if_true]

/-- Witness for C7 (amended): a seven-byte file with matrix size 2. -/
theorem loadAdjacencyMatrices_rejects_ragged_witness :
    ((2 : Int) ≠ 0 ∧ (2 : Int) * 2 ≤ INT_MAX ∧
      ¬ ((2 : Int) * 2 ∣ (([0, 1, 1, 0, 1, 1, 0] : List Nat).length : Int))) ∧
    loadAdjacencyMatrices
      { opens := true, bytes := [0, 1, 1, 0, 1, 1, 0], readOk := true } 2 = some [] :=
  ⟨⟨by decide, by decide, by decide⟩,
    loadAdjacencyMatrices_rejects_ragged
      { opens := true, bytes := [0, 1, 1, 0, 1, 1, 0], readOk := true } 2
      (by decide) (by decide) (by decide)⟩

/-- C8 (at `numConfigs = 2` with the single result `2`): the table printed on
standard output has the one row `(2, 1)`, but the frequency CSV file receives
the rows `(0, 0)` and `(1, 0)` as well. -/
theorem csvTable_writes_zero_rows :
    aggregate 2 [2] = some { distribution := [0, 0, 1], totalEstaveis := 1, flags := [1] } ∧
    printedTable 2 [0, 0, 1] = some [(2, 1)] ∧
    csvTable 2 [0, 0, 1] = some [(0, 0), (1, 0), (2, 1)] := by
  decide


theorem gpuConsensusSimulationBatch_failed_init (gpu : Substrate)
    (allMatricesFlat configs results : List Nat) (nodeCount numConfigs numGraphs numSteps : Nat)
    (h : gpu.libraryOk = false ∨ gpu.pipelineOk = false) :
    gpuConsensusSimulationBatch gpu allMatricesFlat configs results nodeCount numConfigs
      numGraphs numSteps = some { results := results, dispatched := none } := by
  unfold gpuConsensusSimulationBatch
  rcases h with h | h
  · rw [if_pos h]
  · by_cases hl : gpu.libraryOk = false
    · rw [if_pos hl]
    · rw [if_neg hl, if_pos h]

/-- With library and pipeline available and `results` holding `numGraphs`
entries, the call dispatches `totalThreads` work units and overwrites
`results` with the slots of the result buffer. -/
theorem gpuConsensusSimulationBatch_dispatch (gpu : Substrate)
    (allMatricesFlat configs results : List Nat) (nodeCount numConfigs numGraphs numSteps : Nat)
    (hlib : gpu.libraryOk = true) (hpipe : gpu.pipelineOk = true)
    (hlen : results.length = numGraphs) :
    gpuConsensusSimulationBatch gpu allMatricesFlat configs results nodeCount numConfigs
      numGraphs numSteps
      = some
        { results :=
            (List.range numGraphs).map (fun g =>
              toUInt32 (gpu.kernel allMatricesFlat configs nodeCount numConfigs numSteps
                numGraphs (totalThreads numGraphs numConfigs) g))
          dispatched := some (totalThreads numGraphs numConfigs) } := by
  unfold gpuConsensusSimulationBatch
  rw [if_neg (by rw [hlib]; decide), if_neg (by rw [hpipe]; decide)]
  have hnot : ¬ (results.length < numGraphs) := by omega
  have hdrop : results.drop numGraphs = [] := List.drop_of_length_le (by omega)
  simp only [hnot, if_false, hdrop, List.append_nil]

/-- The run of `main` up to the return of `gpuConsensusSimulationBatch`, from
the values of its intermediate variables. -/
theorem mainBatch_eq (inp : MainInput) (p numConfigs : Nat) (configs : List Nat)
    (allMatrices : List (List Nat)) (outcome : BatchOutcome)
    (hs : shl32 1 inp.nodeCount = some p)
    (hg : generateAllBinaryConfigs inp.nodeCount = some configs)
    (hn : numConfigsOf configs inp.nodeCount = some numConfigs)
    (hl : loadAdjacencyMatrices inp.file (toInt32 inp.nodeCount) = some allMatrices)
    (hgpu : gpuConsensusSimulationBatch inp.gpu (flattenMatrices allMatrices) configs
      (List.replicate (toUInt32 allMatrices.length) 0) inp.nodeCount numConfigs
      (toUInt32 allMatrices.length) (toUInt32 (p + 1)) = some outcome) :
    mainBatch inp
      = some { numConfigs := numConfigs, numGraphs := toUInt32 allMatrices.length,
               outcome := outcome } := by
  unfold mainBatch
  simp only [hs, hg, hn, hl, hgpu]

/-- When the library or the pipeline fails, `main` goes on to report on the
zero-initialised `results`. -/
theorem main_failed_init (inp : MainInput) (p numConfigs : Nat) (configs : List Nat)
    (allMatrices : List (List Nat))
    (hdev : inp.deviceOk = true)
    (hfail : inp.gpu.libraryOk = false ∨ inp.gpu.pipelineOk = false)
    (hs : shl32 1 inp.nodeCount = some p)
    (hg : generateAllBinaryConfigs inp.nodeCount = some configs)
    (hn : numConfigsOf configs inp.nodeCount = some numConfigs)
    (hl : loadAdjacencyMatrices inp.file (toInt32 inp.nodeCount) = some allMatrices) :
    main inp = mainReport inp numConfigs (List.replicate (toUInt32 allMatrices.length) 0) := by
  unfold main
  rw [if_neg (by rw [hdev]; decide)]
  rw [mainBatch_eq inp p numConfigs configs allMatrices _ hs hg hn hl
    (gpuConsensusSimulationBatch_failed_init _ _ _ _ _ _ _ _ hfail)]

/-- The dispatch of `main` in general: with `1 ≤ nodeCount ≤ 31`, an input file
of `m` matrices shorter than `2 ^ 31` bytes, and library and pipeline
available, `main` reaches the dispatch with `numConfigs = 2 ^ nodeCount` and
`numGraphs = m`, and the grid is the product reduced modulo `2 ^ 32`. -/
theorem mainBatch_dispatch (inp : MainInput) (n m : Nat) (h1 : 1 ≤ n) (h31 : n ≤ 31)
    (hnode : inp.nodeCount = n)
    (hopen : inp.file.opens = true) (hread : inp.file.readOk = true)
    (hlib : inp.gpu.libraryOk = true) (hpipe : inp.gpu.pipelineOk = true)
    (hlen : inp.file.bytes.length = m * (n * n))
    (hsize : inp.file.bytes.length < 2 ^ 31) :
    ∃ run, mainBatch inp = some run ∧ run.numConfigs = 2 ^ n ∧ run.numGraphs = m ∧
      run.outcome.dispatched = some (toUInt32 (m * 2 ^ n)) := by
  have h32 : n < 32 := by omega
  have hnn : n * n < 2 ^ 31 := by
    have : n * n ≤ 31 * 31 := Nat.mul_le_mul h31 h31
    omega
  have hpos : 0 < n * n := Nat.mul_pos h1 h1
  have hm : m < 2 ^ 32 := by
    have : m ≤ m * (n * n) := Nat.le_mul_of_pos_right m hpos
    omega
  have hs : shl32 1 inp.nodeCount = some (2 ^ n) := by rw [hnode]; exact shl32_one n h32
  have hg : generateAllBinaryConfigs inp.nodeCount = some (fillConfigs (2 ^ n) n) := by
    rw [hnode]; exact generateAllBinaryConfigs_eq n h32
  have hn : numConfigsOf (fillConfigs (2 ^ n) n) inp.nodeCount = some (2 ^ n) := by
    have h := mainNumConfigs_eq n h1 h32
    unfold mainNumConfigs at h
    rw [generateAllBinaryConfigs_eq n h32] at h
    rw [hnode]
    exact h
  have hl : loadAdjacencyMatrices inp.file (toInt32 inp.nodeCount)
      = some ((List.range m).map (byteBlock inp.file.bytes (n * n))) := by
    rw [hnode, toInt32_natCast n (by omega)]
    exact loadAdjacencyMatrices_blocks inp.file n m h1 hopen hread hlen hnn hsize
  have hcount : toUInt32 ((List.range m).map (byteBlock inp.file.bytes (n * n))).length = m := by
    rw [List.length_map, List.length_range]
    exact toUInt32_of_lt m hm
  have hgpu := gpuConsensusSimulationBatch_dispatch inp.gpu
    (flattenMatrices ((List.range m).map (byteBlock inp.file.bytes (n * n))))
    (fillConfigs (2 ^ n) n)
    (List.replicate (toUInt32 ((List.range m).map (byteBlock inp.file.bytes (n * n))).length) 0)
    inp.nodeCount (2 ^ n)
    (toUInt32 ((List.range m).map (byteBlock inp.file.bytes (n * n))).length)
    (toUInt32 (2 ^ n + 1)) hlib hpipe (List.length_replicate _ _)
  refine ⟨_, mainBatch_eq inp (2 ^ n) (2 ^ n) (fillConfigs (2 ^ n) n) _ _ hs hg hn hl hgpu,
    rfl, hcount, ?_⟩
  show some (totalThreads _ (2 ^ n)) = some (toUInt32 (m * 2 ^ n))
  rw [hcount]
  rfl

theorem mainReport_eval (inp : MainInput) (numConfigs : Nat) (results : List Nat)
    (st : AggState) (printed csv : List (Nat × Nat))
    (hopen : inp.allGraphsCsvOpens = true) (hfreq : inp.frequencyCsvOpens = true)
    (ha : aggregate numConfigs results = some st)
    (hp : printedTable numConfigs st.distribution = some printed)
    (hc : csvTable numConfigs st.distribution = some csv) :
    mainReport inp numConfigs results
      = some { exitCode := 0, graphFlags := some st.flags,
               printedTotal := some st.totalEstaveis, printedRows := some printed,
               csvRows := some csv } := by
  unfold mainReport frequencyCsv
  rw [if_neg (by rw [hopen]; decide)]
  simp only [ha, hp, hfreq, hc, Bool.true_eq_false, if_false]

/-- C10 (with one node, two graphs, and the library or the pipeline failing):
`main` does not abort; for every kernel it exits with code 0 after writing a
record with flag 0 for each graph, printing the table `(0, 2)` and writing the
frequency CSV, all from the zero-initialised `results`. -/
theorem main_reports_after_failed_init
    (kernel : List Nat → List Nat → Nat → Nat → Nat → Nat → Nat → Nat → Nat) :
    main
      { deviceOk := true, nodeCount := 1,
        file := { opens := true, bytes := [0, 1], readOk := true },
        gpu := { libraryOk := false, pipelineOk := true, kernel := kernel },
        allGraphsCsvOpens := true, frequencyCsvOpens := true }
      = some
        { exitCode := 0, graphFlags := some [0, 0], printedTotal := some 0,
          printedRows := some [(0, 2)], csvRows := some [(0, 2), (1, 0), (2, 0)] } ∧
    main
      { deviceOk := true, nodeCount := 1,
        file := { opens := true, bytes := [0, 1], readOk := true },
        gpu := { libraryOk := true, pipelineOk := false, kernel := kernel },
        allGraphsCsvOpens := true, frequencyCsvOpens := true }
      = some
        { exitCode := 0, graphFlags := some [0, 0], printedTotal := some 0,
          printedRows := some [(0, 2)], csvRows := some [(0, 2), (1, 0), (2, 0)] } := by
  have hs : shl32 1 1 = some 2 := by decide
  have hg : generateAllBinaryConfigs 1 = some [0, 1] := by decide
  have hn : numConfigsOf [0, 1] 1 = some 2 := by decide
  have hl : loadAdjacencyMatrices { opens := true, bytes := [0, 1], readOk := true }
      (toInt32 ((1 : Nat) : Int)) = some [[0], [1]] := by decide
  have ha : aggregate 2 (List.replicate (toUInt32 ([[0], [1]] : List (List Nat)).length) 0)
      = some { distribution := [2, 0, 0], totalEstaveis := 0, flags := [0, 0] } := by decide
  have hp : printedTable 2 [2, 0, 0] = some [(0, 2)] := by decide
  have hc : csvTable 2 [2, 0, 0] = some [(0, 2), (1, 0), (2, 0)] := by decide
  constructor
  · rw [main_failed_init _ 2 2 [0, 1] [[0], [1]] rfl (Or.inl rfl) hs hg hn hl]
    exact mainReport_eval _ 2 _ _ _ _ rfl rfl ha hp hc
  · rw [main_failed_init _ 2 2 [0, 1] [[0], [1]] rfl (Or.inr rfl) hs hg hn hl]
    exact mainReport_eval _ 2 _ _ _ _ rfl rfl ha hp hc

/-- C9 (with 16 nodes and an input file of `2 ^ 24` bytes, that is 65536 graphs,
everything else working): `main` reaches the dispatch with `numConfigs = 2 ^ 16`
and `numGraphs = 65536`, and the grid handed to `dispatchThreads` is `0`,
although there are `65536 * 2 ^ 16 = 2 ^ 32` (graph, configuration) pairs.  With
one node and the two-byte file `[0, 1]` the grid is `4 = 2 * 2 ^ 1`, as the
claim says. -/
theorem main_dispatches_wrapped_grid
    (kernel : List Nat → List Nat → Nat → Nat → Nat → Nat → Nat → Nat → Nat) :
    (∃ run,
      mainBatch
        { deviceOk := true, nodeCount := 16,
          file := { opens := true, bytes := List.replicate (2 ^ 24) 0, readOk := true },
          gpu := { libraryOk := true, pipelineOk := true, kernel := kernel },
          allGraphsCsvOpens := true, frequencyCsvOpens := true } = some run ∧
      run.numConfigs = 2 ^ 16 ∧ run.numGraphs = 65536 ∧
      run.outcome.dispatched = some 0 ∧
      run.numGraphs * 2 ^ 16 = 2 ^ 32) ∧
    (∃ run,
      mainBatch
        { deviceOk := true, nodeCount := 1,
          file := { opens := true, bytes := [0, 1], readOk := true },
          gpu := { libraryOk := true, pipelineOk := true, kernel := kernel },
          allGraphsCsvOpens := true, frequencyCsvOpens := true } = some run ∧
      run.numConfigs = 2 ^ 1 ∧ run.numGraphs = 2 ∧
      run.outcome.dispatched = some 4) := by
  constructor
  · obtain ⟨run, hrun, hc, hg, hd⟩ := mainBatch_dispatch
      { deviceOk := true, nodeCount := 16,
        file := { opens := true, bytes := List.replicate (2 ^ 24) 0, readOk := true },
        gpu := { libraryOk := true, pipelineOk := true, kernel := kernel },
        allGraphsCsvOpens := true, frequencyCsvOpens := true }
      16 65536 (by decide) (by decide) rfl rfl rfl rfl rfl
      (show (List.replicate (2 ^ 24) 0).length = 65536 * (16 * 16) by
        rw [List.length_replicate]; decide)
      (show (List.replicate (2 ^ 24) 0).length < 2 ^ 31 by
        rw [List.length_replicate]; decide)
    refine ⟨run, hrun, hc, hg, ?_, ?_⟩
    · rw [hd]
      decide
    · rw [hg]
      decide
  · obtain ⟨run, hrun, hc, hg, hd⟩ := mainBatch_dispatch
      { deviceOk := true, nodeCount := 1,
        file := { opens := true, bytes := [0, 1], readOk := true },
        gpu := { libraryOk := true, pipelineOk := true, kernel := kernel },
        allGraphsCsvOpens := true, frequencyCsvOpens := true }
      1 2 (by decide) (by decide) rfl rfl rfl rfl rfl
      (show ([0, 1] : List Nat).length = 2 * (1 * 1) by decide)
      (show ([0, 1] : List Nat).length < 2 ^ 31 by decide)
    refine ⟨run, hrun, hc, hg, ?_⟩
    rw [hd]
    decide

end ConsensusHost
